import Mathlib

/-!
Shallow embedding of the Barky realtime session/state layer
(`src/App.tsx`, `src/types.ts`, and the TeacherBoard component), together
with proofs about the specified behaviour: playback scheduling, transcript
reconciliation, citation-source merging, the language filter, board
visibility, the sanitizer, and the avatar-mood transitions.
-/

namespace Barky

/-- Avatar mood.  The enum in `src/types.ts` declares the members IDLE,
LISTENING, THINKING, SPEAKING, HAPPY, ANGRY, while `src/App.tsx` also
references `DogState.CONNECTING`; this Lean type is the union of both member
sets so that the `App.tsx` handlers can be embedded.  The lists
`typesDogStateNames` and `appDogStateNames` record the two files' own
member-name views. -/
inductive DogState where
  | IDLE
  | CONNECTING
  | LISTENING
  | THINKING
  | SPEAKING
  | HAPPY
  | ANGRY
  deriving DecidableEq, Repr

/-- The member names literally declared by `enum DogState` in `src/types.ts`
(lines 2-9). -/
def typesDogStateNames : List String :=
  ["IDLE", "LISTENING", "THINKING", "SPEAKING", "HAPPY", "ANGRY"]

/-- The `DogState.<member>` names referenced by `src/App.tsx`. -/
def appDogStateNames : List String :=
  ["IDLE", "CONNECTING", "LISTENING", "SPEAKING", "HAPPY", "ANGRY"]

/-- A web citation source (`WebSource` in `src/types.ts`). -/
structure WebSource where
  uri : String
  title : String
  deriving DecidableEq, Repr

/-- The sender tag of a transcript entry (`'user' | 'dog'`). -/
inductive Sender where
  | user
  | dog
  deriving DecidableEq, Repr

/-- A transcript entry (`TranscriptionEntry` in `src/types.ts`).  The
optional `webSources` field is modelled with `Option`; a missing field is
`none` and the code reads it as `last.webSources || []`. -/
structure TranscriptionEntry where
  text : String
  sender : Sender
  timestamp : Nat
  webSources : Option (List WebSource)
  deriving DecidableEq, Repr

/-- The six board layout tags (`BoardVisualType` in `src/types.ts`). -/
inductive BoardVisualType where
  | bullet_list
  | step_by_step
  | comparison
  | code_snippet
  | summary_card
  | bar_chart
  deriving DecidableEq, Repr

/-- A board item (`BoardItem` in `src/types.ts`). -/
structure BoardItem where
  heading : Option String
  content : String
  deriving DecidableEq, Repr

/-- The board state (`BoardContent` in `src/types.ts`). -/
structure BoardContent where
  title : String
  visualType : BoardVisualType
  items : List BoardItem
  isVisible : Bool
  deriving DecidableEq, Repr

/-- The React component state that the embedded handlers touch:
`dogState`, `barkCount`, `boardContent`, `transcriptions`, `inputText`. -/
structure AppState where
  dogState : DogState
  barkCount : Nat
  boardContent : BoardContent
  transcriptions : List TranscriptionEntry
  inputText : String
  deriving DecidableEq, Repr

/-- Whether `pat` leads (is at the front of) the character list. -/
def charsLead : List Char → List Char → Bool
  | [], _ => true
  | _ :: _, [] => false
  | p :: ps, c :: cs => p == c && charsLead ps cs

/-- Whether `pat` occurs anywhere in the character list. -/
def charsOccur (pat : List Char) : List Char → Bool
  | [] => charsLead pat []
  | c :: cs => charsLead pat (c :: cs) || charsOccur pat cs

/-- JavaScript `s.includes(pat)`. -/
def jsIncludes (s pat : String) : Bool := charsOccur pat.data s.data

/-- The whitespace class of the JavaScript regexes and of `trim`. -/
def jsWhitespace (c : Char) : Bool :=
  decide ((0x09 ≤ c.toNat ∧ c.toNat ≤ 0x0D) ∨ c.toNat = 0x20 ∨ c.toNat = 0xA0 ∨
    c.toNat = 0x1680 ∨ (0x2000 ≤ c.toNat ∧ c.toNat ≤ 0x200A) ∨ c.toNat = 0x2028 ∨
    c.toNat = 0x2029 ∨ c.toNat = 0x202F ∨ c.toNat = 0x205F ∨ c.toNat = 0x3000 ∨
    c.toNat = 0xFEFF)

/-- JavaScript `!s.trim()`: the string is empty or all-whitespace. -/
def jsBlank (s : String) : Bool := s.data.all jsWhitespace

/-- `handleAction` (`src/App.tsx` lines 376-403).  Returns the updated
state together with the list of realtime text inputs dispatched to the
session.  The early return on IDLE/CONNECTING, the annoyance path for the
third consecutive action containing "Bark" (which dispatches an annoyance
message and returns before the board is hidden), and the normal path
(set mood, hide board, log the user entry, dispatch the text) follow the
source control flow. -/
def handleAction (st : AppState) (text : String) (mood : DogState) (now : Nat) :
    AppState × List String :=
  if st.dogState = DogState.IDLE ∨ st.dogState = DogState.CONNECTING then (st, [])
  else if jsIncludes text "Bark" = true ∧ st.barkCount + 1 ≥ 3 then
    ({ st with barkCount := st.barkCount + 1, dogState := DogState.ANGRY },
      ["(User is annoying you. Refuse to bark. Say No!)"])
  else
    ({ st with
        barkCount := if jsIncludes text "Bark" = true then st.barkCount + 1 else 0,
        dogState := mood,
        boardContent := { st.boardContent with isVisible := false },
        transcriptions := st.transcriptions ++ [⟨text, Sender.user, now, none⟩] },
      [text])

/-- `handleSendMessage` (`src/App.tsx` lines 405-423): guard on blank input
and IDLE/CONNECTING, clear the input box, hide the board, log the user
entry, dispatch the typed text. -/
def handleSendMessage (st : AppState) (now : Nat) : AppState × List String :=
  if jsBlank st.inputText = true ∨ st.dogState = DogState.IDLE ∨
      st.dogState = DogState.CONNECTING then (st, [])
  else
    ({ st with
        inputText := "",
        boardContent := { st.boardContent with isVisible := false },
        transcriptions := st.transcriptions ++ [⟨st.inputText, Sender.user, now, none⟩] },
      [st.inputText])

/-- The TeacherBoard `onClose` / eraser handler (`src/App.tsx` line 454):
`setBoardContent(prev => ({ ...prev, isVisible: false }))`. -/
def closeBoard (b : BoardContent) : BoardContent := { b with isVisible := false }

/-- The `updateBoard` tool-call handler (`src/App.tsx` lines 133-141):
the board is replaced wholesale and made visible. -/
def handleToolCall (st : AppState) (title : String) (v : BoardVisualType)
    (items : List BoardItem) : AppState :=
  { st with boardContent := ⟨title, v, items, true⟩ }

/-- Mood update on an audio-output chunk (`src/App.tsx` line 208):
`prev === ANGRY ? ANGRY : SPEAKING`. -/
def moodOnAudioChunk (prev : DogState) : DogState :=
  if prev = DogState.ANGRY then DogState.ANGRY else DogState.SPEAKING

/-- Mood update in a chunk's `onended` callback (`src/App.tsx` lines
227-233): after removing the source, if no chunks remain active the state
becomes `prev === ANGRY ? LISTENING : LISTENING`, else it is untouched. -/
def moodOnChunkEnd (remaining : Nat) (prev : DogState) : DogState :=
  if remaining = 0 then
    (if prev = DogState.ANGRY then DogState.LISTENING else DogState.LISTENING)
  else prev

/-- Mood assigned by `startSession` before connecting (`src/App.tsx`
line 260). -/
def moodOnStartSession : DogState := DogState.CONNECTING

/-- Mood assigned by the `onopen` callback (`src/App.tsx` line 334). -/
def moodOnOpen : DogState := DogState.LISTENING

/-- Claim C7: `src/types.ts` does not declare a CONNECTING member (it
declares THINKING instead), yet `src/App.tsx` references
`DogState.CONNECTING`, assigning it on session start and then LISTENING on
open.  The claim's six-value list matches the `App.tsx` usage, not the
declared enum: the two source files contradict each other. -/
theorem C7_dogstate_enum_mismatch :
    appDogStateNames.contains "CONNECTING" = true ∧
    typesDogStateNames.contains "CONNECTING" = false ∧
    typesDogStateNames.contains "THINKING" = true ∧
    appDogStateNames.contains "THINKING" = false ∧
    moodOnStartSession = DogState.CONNECTING ∧
    moodOnOpen = DogState.LISTENING := by
  refine ⟨?_, ?_, ?_, ?_, rfl, rfl⟩ <;> decide

/-- Claim C3: on an audio-output chunk the mood becomes Speaking unless it
is Angry, in which case it stays Angry; on a chunk's natural completion
with zero chunks remaining active the mood becomes Listening regardless of
the previous mood (in particular Angry is not sticky on drain). -/
theorem C3_mood_chunk_and_drain :
    moodOnAudioChunk DogState.ANGRY = DogState.ANGRY ∧
    (∀ prev, prev ≠ DogState.ANGRY → moodOnAudioChunk prev = DogState.SPEAKING) ∧
    (∀ prev, moodOnChunkEnd 0 prev = DogState.LISTENING) := by
  refine ⟨rfl, ?_, ?_⟩
  · intro prev h
    simp [moodOnAudioChunk, h]
  · intro prev
    cases prev <;> rfl

/-- Witness for C3 at a concrete non-Angry mood. -/
theorem C3_mood_chunk_and_drain_w :
    moodOnAudioChunk DogState.LISTENING = DogState.SPEAKING :=
  C3_mood_chunk_and_drain.2.1 DogState.LISTENING (by decide)

/-- Claim C10: every operation that hides the board — dispatching a
scripted user action, sending a typed message, or the eraser close action —
leaves `title`, `visualType` and `items` unchanged, and the close action
sets only `isVisible` to false. -/
theorem C10_hide_preserves_board_frame :
    (∀ st text mood now,
      (handleAction st text mood now).1.boardContent.title = st.boardContent.title ∧
      (handleAction st text mood now).1.boardContent.visualType = st.boardContent.visualType ∧
      (handleAction st text mood now).1.boardContent.items = st.boardContent.items) ∧
    (∀ st now,
      (handleSendMessage st now).1.boardContent.title = st.boardContent.title ∧
      (handleSendMessage st now).1.boardContent.visualType = st.boardContent.visualType ∧
      (handleSendMessage st now).1.boardContent.items = st.boardContent.items) ∧
    (∀ b, (closeBoard b).title = b.title ∧ (closeBoard b).visualType = b.visualType ∧
      (closeBoard b).items = b.items ∧ (closeBoard b).isVisible = false) := by
  refine ⟨?_, ?_, ?_⟩
  · intro st text mood now
    unfold handleAction
    split
    · exact ⟨rfl, rfl, rfl⟩
    · split
      · exact ⟨rfl, rfl, rfl⟩
      · exact ⟨rfl, rfl, rfl⟩
  · intro st now
    unfold handleSendMessage
    split
    · exact ⟨rfl, rfl, rfl⟩
    · exact ⟨rfl, rfl, rfl⟩
  · intro b
    exact ⟨rfl, rfl, rfl, rfl⟩

/-- A concrete state: mid-class (LISTENING), two previous consecutive
"Bark" actions, a visible board. -/
def c2State : AppState :=
  ⟨DogState.LISTENING, 2,
    ⟨"Fastest animals", BoardVisualType.bar_chart, [⟨some "Cheetah", "120"⟩], true⟩,
    [], "hello"⟩

/-- Counterexample to claim C2 as stated: the annoyance path of
`handleAction` (third consecutive action containing "Bark") dispatches a
text input to the session while leaving the board visible. -/
theorem C2_counterexample_bark_dispatch_keeps_board :
    (handleAction c2State "Bark" DogState.HAPPY 0).2 =
      ["(User is annoying you. Refuse to bark. Say No!)"] ∧
    (handleAction c2State "Bark" DogState.HAPPY 0).1.boardContent.isVisible = true := by
  constructor <;> rfl

/-- Claim C2, amended: every typed message that is dispatched hides the
board, and every scripted action that is dispatched hides the board unless
it takes the annoyance path (text containing "Bark" as the third
consecutive such action), which dispatches the annoyance message with the
board visibility untouched. -/
theorem C2_board_hidden_on_dispatch :
    (∀ st now, (handleSendMessage st now).2 ≠ [] →
      (handleSendMessage st now).1.boardContent.isVisible = false) ∧
    (∀ st text mood now, (handleAction st text mood now).2 ≠ [] →
      ¬(jsIncludes text "Bark" = true ∧ st.barkCount + 1 ≥ 3) →
      (handleAction st text mood now).1.boardContent.isVisible = false) := by
  constructor
  · intro st now hd
    by_cases h1 : jsBlank st.inputText = true ∨ st.dogState = DogState.IDLE ∨
        st.dogState = DogState.CONNECTING
    · unfold handleSendMessage at hd
      rw [if_pos h1] at hd
      exact absurd rfl hd
    · unfold handleSendMessage
      rw [if_neg h1]
  · intro st text mood now hd hbark
    by_cases h1 : st.dogState = DogState.IDLE ∨ st.dogState = DogState.CONNECTING
    · unfold handleAction at hd
      rw [if_pos h1] at hd
      exact absurd rfl hd
    · unfold handleAction
      rw [if_neg h1, if_neg hbark]

/-- Witness for the amended C2 at concrete inputs: a typed "hello" and a
scripted treat action both dispatch and leave the board hidden. -/
theorem C2_board_hidden_on_dispatch_w :
    (handleSendMessage c2State 3).1.boardContent.isVisible = false ∧
    (handleAction c2State "Do you want a treat?" DogState.HAPPY 4).1.boardContent.isVisible
      = false := by
  constructor
  · exact C2_board_hidden_on_dispatch.1 c2State 3 (by decide)
  · exact C2_board_hidden_on_dispatch.2 c2State "Do you want a treat?" DogState.HAPPY 4
      (by decide) (by decide)

/-- One decoded audio chunk as seen by the playback scheduler: the output
clock reading (`ctx.currentTime`) at the moment it is scheduled, and its
duration (`buffer.duration`). -/
structure ChunkArrival where
  clock : ℚ
  dur : ℚ
  deriving DecidableEq, Repr

/-- The playback-scheduling loop of `handleSessionMessage` (`src/App.tsx`
lines 221-223): for each chunk, `startTime = max(nextStartTime,
ctx.currentTime)`, the chunk plays on `[startTime, startTime + duration)`,
and `nextStartTime` advances to `startTime + duration`.  Returns the list
of (start, end) intervals given the initial watermark `w`. -/
def scheduleAll (w : ℚ) : List ChunkArrival → List (ℚ × ℚ)
  | [] => []
  | c :: cs =>
    (max w c.clock, max w c.clock + c.dur) :: scheduleAll (max w c.clock + c.dur) cs

/-- Scheduled intervals form a chain: consecutive chunks have non-decreasing
start times and each start is at or after the previous end. -/
theorem scheduleAll_chain :
    ∀ (cs : List ChunkArrival) (w : ℚ), (∀ c ∈ cs, 0 ≤ c.dur) →
      List.Chain' (fun p q : ℚ × ℚ => p.1 ≤ q.1 ∧ p.2 ≤ q.1) (scheduleAll w cs)
  | [], _, _ => List.chain'_nil
  | [_], _, _ => List.chain'_singleton _
  | c :: c2 :: cs2, w, h => by
    have hd : 0 ≤ c.dur := h c (List.mem_cons_self c _)
    have h2 : ∀ x ∈ c2 :: cs2, 0 ≤ x.dur := fun x hx => h x (List.mem_cons_of_mem c hx)
    have ih := scheduleAll_chain (c2 :: cs2) (max w c.clock + c.dur) h2
    have hstep : 0 ≤ c.dur → max w c.clock + c.dur ≤
        max (max w c.clock + c.dur) c2.clock := fun _ => le_max_left _ _
    simp only [scheduleAll] at ih ⊢
    exact List.chain'_cons.mpr
      ⟨⟨le_trans (le_add_of_nonneg_right hd) (le_max_left _ _), le_max_left _ _⟩, ih⟩

/-- Claim C1: each chunk is scheduled to start at `max(watermark, clock)`
and the watermark then advances by the chunk's duration (first conjunct,
the unfolding of one scheduling step); consequently, for chunks of
nonnegative duration, the scheduled start times are non-decreasing and each
start is at or after the previous chunk's end — no overlap (second
conjunct), whatever clock readings the asynchronous decodes observe. -/
theorem C1_scheduler_monotone_no_overlap :
    (∀ (w : ℚ) (c : ChunkArrival) (cs : List ChunkArrival),
      scheduleAll w (c :: cs) =
        (max w c.clock, max w c.clock + c.dur) ::
          scheduleAll (max w c.clock + c.dur) cs) ∧
    (∀ (w : ℚ) (cs : List ChunkArrival), (∀ c ∈ cs, 0 ≤ c.dur) →
      List.Chain' (fun p q : ℚ × ℚ => p.1 ≤ q.1 ∧ p.2 ≤ q.1) (scheduleAll w cs)) :=
  ⟨fun _ _ _ => rfl, fun w cs h => scheduleAll_chain cs w h⟩

/-- Witness for C1: three chunks arriving with clock readings out of order
relative to their scheduling (the second decode completes while the clock
is behind the watermark, the third when it is ahead). -/
theorem C1_scheduler_monotone_no_overlap_w :
    List.Chain' (fun p q : ℚ × ℚ => p.1 ≤ q.1 ∧ p.2 ≤ q.1)
      (scheduleAll 0 [⟨1, 2⟩, ⟨2, 1⟩, ⟨10, 3⟩]) :=
  C1_scheduler_monotone_no_overlap.2 0 [⟨1, 2⟩, ⟨2, 1⟩, ⟨10, 3⟩] (by decide)

/-- An `AudioBufferSourceNode` as far as stopping is concerned: whether it
already ended naturally, and whether `stop()` was applied. -/
structure AudioSource where
  finished : Bool
  stopped : Bool
  deriving DecidableEq, Repr

/-- `source.stop()`: the underlying call can throw (for instance on a node
that is already done); the result is an `Except`. -/
def rawStop (s : AudioSource) : Except String AudioSource :=
  if s.finished = true then Except.error "InvalidStateError"
  else Except.ok { s with stopped := true }

/-- The loop body of `stopAllAudio`: `try { source.stop(); } catch (e) {}` —
a thrown error is swallowed and the source is left as it was. -/
def tryStop (s : AudioSource) : Except String AudioSource :=
  match rawStop s with
  | Except.ok s2 => Except.ok s2
  | Except.error _ => Except.ok s

/-- Sequencing of `activeSourcesRef.current.forEach(...)`: the loop fails
if and only if some body invocation fails. -/
def stopEach : List AudioSource → Except String (List AudioSource)
  | [] => Except.ok []
  | s :: ss =>
    match tryStop s with
    | Except.error e => Except.error e
    | Except.ok s2 =>
      match stopEach ss with
      | Except.error e => Except.error e
      | Except.ok ss2 => Except.ok (s2 :: ss2)

/-- The playback-scheduler state owned by the session: the
`nextStartTimeRef` watermark and the `activeSourcesRef` set. -/
structure AudioPlaybackState where
  nextStartTime : ℚ
  activeSources : List AudioSource
  deriving DecidableEq, Repr

/-- `stopAllAudio` (`src/App.tsx` lines 100-106): stop every active source
with errors swallowed, clear the active set, reset the watermark to 0. -/
def stopAllAudio (st : AudioPlaybackState) : Except String AudioPlaybackState :=
  match stopEach st.activeSources with
  | Except.error e => Except.error e
  | Except.ok _ => Except.ok { nextStartTime := 0, activeSources := [] }

/-- Every loop body succeeds (the catch swallows any stop error). -/
theorem tryStop_ok (s : AudioSource) : ∃ s2, tryStop s = Except.ok s2 := by
  unfold tryStop rawStop
  by_cases h : s.finished = true
  · exact ⟨s, by rw [if_pos h]⟩
  · exact ⟨{ s with stopped := true }, by rw [if_neg h]⟩

/-- The whole stop loop succeeds on any active set. -/
theorem stopEach_ok : ∀ ss : List AudioSource, ∃ ss2, stopEach ss = Except.ok ss2
  | [] => ⟨[], rfl⟩
  | s :: ss => by
    obtain ⟨s2, h1⟩ := tryStop_ok s
    obtain ⟨ss2, h2⟩ := stopEach_ok ss
    exact ⟨s2 :: ss2, by unfold stopEach; rw [h1, h2]⟩

/-- Counterexample to the "no-op when zero chunks are active" part of claim
C9: with an empty active set but watermark 5, `stopAllAudio` still resets
the watermark to 0, so the state changes (0 < 5). -/
theorem C9_counterexample_watermark_reset :
    stopAllAudio ⟨5, []⟩ = Except.ok ⟨0, []⟩ ∧ (0 : ℚ) < 5 := by
  constructor
  · rfl
  · norm_num

/-- Claim C9, amended: `stopAllAudio` never raises: it halts every source
(errors from stopping already-finished buffers are swallowed by the
`try`/`catch`), clears the active set and resets the watermark to zero —
even when zero chunks are active; with zero active chunks it leaves the
active set unchanged (still empty) and is a full no-op exactly when the
watermark is already zero. -/
theorem C9_stop_all_total :
    (∀ st, stopAllAudio st = Except.ok ⟨0, []⟩) ∧
    (∀ b, tryStop ⟨true, b⟩ = Except.ok ⟨true, b⟩) ∧
    (∀ st, st.activeSources = [] → st.nextStartTime = 0 →
      stopAllAudio st = Except.ok st) := by
  have hall : ∀ st, stopAllAudio st = Except.ok ⟨0, []⟩ := by
    intro st
    obtain ⟨ss2, h⟩ := stopEach_ok st.activeSources
    unfold stopAllAudio
    rw [h]
  refine ⟨hall, ?_, ?_⟩
  · intro b
    rfl
  · intro st h1 h2
    cases st with
    | mk w ss =>
      cases h1
      cases h2
      exact hall _

/-- Witness for the amended C9: stopping with one already-finished source
and watermark 7 succeeds and resets; stopping the empty, already-reset
state returns it unchanged. -/
theorem C9_stop_all_total_w :
    stopAllAudio ⟨7, [⟨true, false⟩]⟩ = Except.ok ⟨0, []⟩ ∧
    tryStop ⟨true, false⟩ = Except.ok ⟨true, false⟩ ∧
    stopAllAudio ⟨0, []⟩ = Except.ok ⟨0, []⟩ := by
  refine ⟨C9_stop_all_total.1 ⟨7, [⟨true, false⟩]⟩, C9_stop_all_total.2.1 false,
    C9_stop_all_total.2.2 ⟨0, []⟩ rfl rfl⟩

/-- Concatenation of a list of strings in order. -/
def concatStrings : List String → String
  | [] => ""
  | s :: ss => s ++ concatStrings ss

/-- The output-transcription branch of `handleSessionMessage` (`src/App.tsx`
lines 157-166) for one fragment: skipped when the text is empty (falsy);
appended to the last entry when that entry's sender is the dog; otherwise a
new dog entry with the arrival timestamp is appended. -/
def handleOutputFragment (ts : List TranscriptionEntry) (text : String) (now : Nat) :
    List TranscriptionEntry :=
  if text = "" then ts
  else
    match ts.getLast? with
    | some last =>
      if last.sender = Sender.dog then
        ts.dropLast ++ [{ last with text := last.text ++ text }]
      else ts ++ [⟨text, Sender.dog, now, none⟩]
    | none => ts ++ [⟨text, Sender.dog, now, none⟩]

/-- A sequence of output fragments, each paired with its arrival time. -/
def handleOutputFragments (ts : List TranscriptionEntry) :
    List (String × Nat) → List TranscriptionEntry
  | [] => ts
  | f :: fs => handleOutputFragments (handleOutputFragment ts f.1 f.2) fs

/-- A list with a known last element is its `dropLast` plus that element. -/
theorem getLast?_decomp {α : Type} :
    ∀ (l : List α) (a : α), l.getLast? = some a → l.dropLast ++ [a] = l
  | [], _, h => by simp at h
  | [x], a, h => by
    rw [List.getLast?_singleton] at h
    cases h
    rfl
  | x :: y :: ys, a, h => by
    rw [List.getLast?_cons_cons] at h
    have ih := getLast?_decomp (y :: ys) a h
    show x :: ((y :: ys).dropLast ++ [a]) = x :: y :: ys
    rw [ih]

/-- Once the last entry belongs to the dog, every further output fragment is
absorbed into it: the run of fragments extends that entry's text by their
concatenation and touches nothing else. -/
theorem handleOutputFragments_dog_last :
    ∀ (fs : List (String × Nat)) (ts : List TranscriptionEntry)
      (last : TranscriptionEntry), ts.getLast? = some last → last.sender = Sender.dog →
      handleOutputFragments ts fs =
        ts.dropLast ++ [{ last with text := last.text ++ concatStrings (fs.map Prod.fst) }]
  | [], ts, last, h, _ => by
    show ts = ts.dropLast ++ [{ last with text := last.text ++ concatStrings [] }]
    rw [show concatStrings [] = "" from rfl, String.append_empty]
    exact (getLast?_decomp ts last h).symm
  | f :: fs, ts, last, h, hs => by
    by_cases hf : f.1 = ""
    · have step : handleOutputFragment ts f.1 f.2 = ts := by
        unfold handleOutputFragment
        rw [if_pos hf]
      have ih := handleOutputFragments_dog_last fs ts last h hs
      show handleOutputFragments (handleOutputFragment ts f.1 f.2) fs = _
      rw [step, ih,
        show concatStrings ((f :: fs).map Prod.fst) =
          f.1 ++ concatStrings (fs.map Prod.fst) from rfl,
        hf, String.empty_append]
    · have step : handleOutputFragment ts f.1 f.2 =
          ts.dropLast ++ [{ last with text := last.text ++ f.1 }] := by
        unfold handleOutputFragment
        rw [if_neg hf, h]
        simp only [hs, if_pos]
      have ih := handleOutputFragments_dog_last fs
        (ts.dropLast ++ [{ last with text := last.text ++ f.1 }])
        { last with text := last.text ++ f.1 } (List.getLast?_concat _) hs
      show handleOutputFragments (handleOutputFragment ts f.1 f.2) fs = _
      rw [step, ih, List.dropLast_concat,
        show concatStrings ((f :: fs).map Prod.fst) =
          f.1 ++ concatStrings (fs.map Prod.fst) from rfl,
        String.append_assoc]

/-- Claim C4: starting from a transcript whose last entry (if any) is not
the dog's, a run of output fragments headed by a non-empty fragment creates
exactly one new dog entry whose text is the concatenation of the fragments
in arrival order, leaving every existing entry untouched (first conjunct);
and when the last entry is the dog's, the run only extends that entry's
text by the concatenation, again leaving the other entries untouched
(second conjunct). -/
theorem C4_output_fragments_concat :
    (∀ (ts : List TranscriptionEntry) (f : String × Nat) (fs : List (String × Nat)),
      (ts = [] ∨ ∃ l, ts.getLast? = some l ∧ l.sender ≠ Sender.dog) → f.1 ≠ "" →
      handleOutputFragments ts (f :: fs) =
        ts ++ [⟨concatStrings ((f :: fs).map Prod.fst), Sender.dog, f.2, none⟩]) ∧
    (∀ (ts : List TranscriptionEntry) (last : TranscriptionEntry)
      (fs : List (String × Nat)),
      ts.getLast? = some last → last.sender = Sender.dog →
      handleOutputFragments ts fs =
        ts.dropLast ++
          [{ last with text := last.text ++ concatStrings (fs.map Prod.fst) }]) := by
  constructor
  · intro ts f fs hstart hf
    have step : handleOutputFragment ts f.1 f.2 = ts ++ [⟨f.1, Sender.dog, f.2, none⟩] := by
      unfold handleOutputFragment
      rw [if_neg hf]
      rcases hstart with rfl | ⟨l, hl, hls⟩
      · rfl
      · rw [hl]
        simp [hls]
    have habs := handleOutputFragments_dog_last fs
      (ts ++ [⟨f.1, Sender.dog, f.2, none⟩]) ⟨f.1, Sender.dog, f.2, none⟩
      (List.getLast?_concat _) rfl
    show handleOutputFragments (handleOutputFragment ts f.1 f.2) fs = _
    rw [step, habs, List.dropLast_concat]
    rfl
  · exact fun ts last fs h hs => handleOutputFragments_dog_last fs ts last h hs

/-- Witness for C4: fragments "Hi" and " there" on an empty transcript
yield one dog entry reading "Hi there"; on a transcript ending with a dog
entry "Woof", fragment "!" extends it to "Woof!". -/
theorem C4_output_fragments_concat_w :
    handleOutputFragments [] [("Hi", 1), (" there", 2)] =
      [⟨"Hi there", Sender.dog, 1, none⟩] ∧
    handleOutputFragments [⟨"Woof", Sender.dog, 0, none⟩] [("!", 5)] =
      [⟨"Woof!", Sender.dog, 0, none⟩] := by
  constructor
  · exact (C4_output_fragments_concat.1 [] ("Hi", 1) [(" there", 2)]
      (Or.inl rfl) (by decide)).trans (by decide)
  · exact (C4_output_fragments_concat.2 [⟨"Woof", Sender.dog, 0, none⟩]
      ⟨"Woof", Sender.dog, 0, none⟩ [("!", 5)] rfl rfl).trans (by decide)

/-- The Devanagari test of the input-transcription filter
(`src/App.tsx` line 194): `/[ऀ-ॿ]/.test(text)`. -/
def containsDevanagari (s : String) : Bool :=
  s.data.any (fun c => decide (0x0900 ≤ c.toNat ∧ c.toNat ≤ 0x097F))

/-- Stated from the spec's words only ("non-Latin script outside the
expected language (English)"): some character lies beyond the Latin blocks
Basic Latin through Latin Extended-B (U+0000-U+024F).  Used solely to state
the original claim C6 for comparison with the code's filter. -/
def containsNonLatinSpec (s : String) : Bool :=
  s.data.any (fun c => decide (0x024F < c.toNat))

/-- The ordinary user-side fragment append: the input-transcription branch
without its language filter, symmetric to `handleOutputFragment`. -/
def handleUserFragment (ts : List TranscriptionEntry) (text : String) (now : Nat) :
    List TranscriptionEntry :=
  if text = "" then ts
  else
    match ts.getLast? with
    | some last =>
      if last.sender = Sender.user then
        ts.dropLast ++ [{ last with text := last.text ++ text }]
      else ts ++ [⟨text, Sender.user, now, none⟩]
    | none => ts ++ [⟨text, Sender.user, now, none⟩]

/-- The input-transcription branch of `handleSessionMessage` (`src/App.tsx`
lines 189-203): a non-empty fragment is processed as a user fragment only
when it contains no character of the Devanagari block U+0900-U+097F;
otherwise it is dropped. -/
def handleInputFragment (ts : List TranscriptionEntry) (text : String) (now : Nat) :
    List TranscriptionEntry :=
  if text = "" then ts
  else if containsDevanagari text = true then ts
  else
    match ts.getLast? with
    | some last =>
      if last.sender = Sender.user then
        ts.dropLast ++ [{ last with text := last.text ++ text }]
      else ts ++ [⟨text, Sender.user, now, none⟩]
    | none => ts ++ [⟨text, Sender.user, now, none⟩]

/-- Counterexample to claim C6 as stated: "你好" is non-Latin script outside
English, yet it contains no Devanagari character, so the code does not drop
it — it becomes a user transcript entry. -/
theorem C6_counterexample_nonlatin_kept :
    containsNonLatinSpec "你好" = true ∧
    containsDevanagari "你好" = false ∧
    handleInputFragment [] "你好" 7 = [⟨"你好", Sender.user, 7, none⟩] := by
  refine ⟨by decide, by decide, by decide⟩

/-- Claim C6, amended: an input-transcription fragment is dropped exactly
when its text contains a character of the Devanagari block U+0900-U+097F
(the code's Hindi filter, not a general non-Latin filter); otherwise it is
handled like an ordinary user fragment. -/
theorem C6_input_filter_devanagari :
    ∀ (ts : List TranscriptionEntry) (text : String) (now : Nat),
      handleInputFragment ts text now =
        if containsDevanagari text = true then ts else handleUserFragment ts text now := by
  intro ts text now
  by_cases ht : text = ""
  · subst ht
    rfl
  · by_cases hd : containsDevanagari text = true
    · rw [if_pos hd]
      unfold handleInputFragment
      rw [if_neg ht, if_pos hd]
    · rw [if_neg hd]
      unfold handleInputFragment handleUserFragment
      rw [if_neg ht, if_neg hd, if_neg ht]

/-- The `newSources` filter of the grounding-metadata branch (`src/App.tsx`
line 180): keep an incoming source only if no already-present source has
the same uri. -/
def mergeNew (last : TranscriptionEntry) (sources : List WebSource) : List WebSource :=
  sources.filter (fun s => !((last.webSources.getD []).any (fun e => e.uri == s.uri)))

/-- The updated last entry after a merge (`src/App.tsx` line 182):
`{ ...last, webSources: [...existing, ...newSources] }`. -/
def mergedEntry (last : TranscriptionEntry) (sources : List WebSource) :
    TranscriptionEntry :=
  { last with webSources := some (last.webSources.getD [] ++ mergeNew last sources) }

/-- The grounding-metadata branch of `handleSessionMessage` (`src/App.tsx`
lines 168-187).  The event's grounding chunks are mapped to their `web`
field (`none` for chunks without one) and the present ones are merged into
the last entry when it is the dog's: sources whose uri is already present
are discarded, and if nothing new remains the state is returned unchanged. -/
def mergeSources (ts : List TranscriptionEntry) (chunks : List (Option WebSource)) :
    List TranscriptionEntry :=
  if 0 < (chunks.filterMap id).length then
    match ts.getLast? with
    | some last =>
      if last.sender = Sender.dog then
        if (mergeNew last (chunks.filterMap id)).length = 0 then ts
        else ts.dropLast ++ [mergedEntry last (chunks.filterMap id)]
      else ts
    | none => ts
  else ts

/-- Unfolding of `mergeSources` on a transcript with an explicit last
entry. -/
theorem mergeSources_concat (ts : List TranscriptionEntry) (e : TranscriptionEntry)
    (chunks : List (Option WebSource)) :
    mergeSources (ts ++ [e]) chunks =
      if 0 < (chunks.filterMap id).length then
        if e.sender = Sender.dog then
          if (mergeNew e (chunks.filterMap id)).length = 0 then ts ++ [e]
          else ts ++ [mergedEntry e (chunks.filterMap id)]
        else ts ++ [e]
      else ts ++ [e] := by
  unfold mergeSources
  rw [List.getLast?_concat, List.dropLast_concat]

/-- An empty transcript is never changed by a grounding event. -/
theorem mergeSources_nil (chunks : List (Option WebSource)) :
    mergeSources [] chunks = [] := by
  unfold mergeSources
  split <;> rfl

/-- `mergeSources` either returns the transcript unchanged or appends the
genuinely new sources to the last (dog) entry. -/
theorem mergeSources_cases (ts : List TranscriptionEntry)
    (chunks : List (Option WebSource)) :
    mergeSources ts chunks = ts ∨
    ∃ last, ts.getLast? = some last ∧ last.sender = Sender.dog ∧
      mergeNew last (chunks.filterMap id) ≠ [] ∧
      mergeSources ts chunks = ts.dropLast ++ [mergedEntry last (chunks.filterMap id)] := by
  cases hl : ts.getLast? with
  | none =>
    cases ts with
    | nil => exact Or.inl (mergeSources_nil chunks)
    | cons x xs =>
      exact absurd hl (by simp [List.getLast?_eq_none_iff])
  | some last =>
    have hdecomp := getLast?_decomp ts last hl
    have he : mergeSources ts chunks = mergeSources (ts.dropLast ++ [last]) chunks := by
      rw [hdecomp]
    by_cases h1 : 0 < (chunks.filterMap id).length
    · by_cases hs : last.sender = Sender.dog
      · by_cases hn : (mergeNew last (chunks.filterMap id)).length = 0
        · refine Or.inl ?_
          rw [he, mergeSources_concat, if_pos h1, if_pos hs, if_pos hn, hdecomp]
        · refine Or.inr ⟨last, rfl, hs, fun hnil => hn (by rw [hnil]; rfl), ?_⟩
          rw [he, mergeSources_concat, if_pos h1, if_pos hs, if_neg hn]
      · refine Or.inl ?_
        rw [he, mergeSources_concat, if_pos h1, if_neg hs, hdecomp]
    · refine Or.inl ?_
      rw [he, mergeSources_concat, if_neg h1, hdecomp]

/-- After a merge, re-filtering the same sources against the updated entry
leaves nothing: every incoming uri is now present. -/
theorem mergeNew_after_merge (last : TranscriptionEntry) (sources : List WebSource) :
    mergeNew (mergedEntry last sources) sources = [] := by
  unfold mergeNew
  rw [List.filter_eq_nil_iff]
  intro s hsmem
  have hws : (mergedEntry last sources).webSources.getD [] =
      last.webSources.getD [] ++ mergeNew last sources := rfl
  have hany : ((last.webSources.getD [] ++
      (mergeNew last sources : List WebSource)).any (fun e => e.uri == s.uri)) = true := by
    rw [List.any_append, Bool.or_eq_true]
    by_cases he : (last.webSources.getD []).any (fun e => e.uri == s.uri) = true
    · exact Or.inl he
    · have he2 : (last.webSources.getD []).any (fun e => e.uri == s.uri) = false := by
        cases hcase : (last.webSources.getD []).any (fun e => e.uri == s.uri) with
        | true => exact absurd hcase he
        | false => rfl
      refine Or.inr ?_
      rw [List.any_eq_true]
      refine ⟨s, ?_, beq_self_eq_true s.uri⟩
      unfold mergeNew
      rw [List.mem_filter]
      exact ⟨hsmem, by rw [he2]; rfl⟩
  rw [hws, hany]
  decide

/-- Merging the same grounding event twice is the same as merging it once. -/
theorem mergeSources_idem (ts : List TranscriptionEntry)
    (chunks : List (Option WebSource)) :
    mergeSources (mergeSources ts chunks) chunks = mergeSources ts chunks := by
  rcases mergeSources_cases ts chunks with h | ⟨last, hl, hs, hne, heq⟩
  · rw [h]
    exact h
  · have hpos : 0 < (chunks.filterMap id).length := by
      rw [List.length_pos]
      intro hnil
      exact hne (by unfold mergeNew; rw [hnil]; rfl)
    have hs2 : (mergedEntry last (chunks.filterMap id)).sender = Sender.dog := hs
    rw [heq, mergeSources_concat, if_pos hpos, if_pos hs2,
      mergeNew_after_merge last (chunks.filterMap id),
      if_pos (show ([] : List WebSource).length = 0 from rfl)]

/-- Claim C5: the citation-source merge is idempotent (first conjunct); an
event whose sources' uris are all already present on the last dog entry
leaves the transcript unchanged — no redundant update (second conjunct);
delivering the same source twice yields a single copy on the entry (third
conjunct); and a merge only ever appends to the existing source list, so
sources keep their order of first arrival (fourth conjunct). -/
theorem C5_source_merge_idempotent :
    (∀ ts chunks, mergeSources (mergeSources ts chunks) chunks = mergeSources ts chunks) ∧
    (∀ ts last chunks, ts.getLast? = some last → last.sender = Sender.dog →
      (∀ s ∈ chunks.filterMap id,
        (last.webSources.getD []).any (fun e => e.uri == s.uri) = true) →
      mergeSources ts chunks = ts) ∧
    (∀ (l : TranscriptionEntry) (s : WebSource), l.sender = Sender.dog →
      l.webSources = none →
      mergeSources (mergeSources [l] [some s]) [some s] =
        [{ l with webSources := some [s] }]) ∧
    (∀ ts chunks l l2, ts.getLast? = some l →
      (mergeSources ts chunks).getLast? = some l2 →
      ∃ tail, l2.webSources.getD [] = l.webSources.getD [] ++ tail) := by
  refine ⟨mergeSources_idem, ?_, ?_, ?_⟩
  · intro ts last chunks hl hs hall
    have hdecomp := getLast?_decomp ts last hl
    have hnil : mergeNew last (chunks.filterMap id) = [] := by
      unfold mergeNew
      rw [List.filter_eq_nil_iff]
      intro s hsmem
      rw [hall s hsmem]
      decide
    have he : mergeSources ts chunks = mergeSources (ts.dropLast ++ [last]) chunks := by
      rw [hdecomp]
    rw [he, mergeSources_concat, hnil]
    by_cases h1 : 0 < (chunks.filterMap id).length
    · rw [if_pos h1]
      by_cases hsd : last.sender = Sender.dog
      · rw [if_pos hsd, if_pos (show ([] : List WebSource).length = 0 from rfl), hdecomp]
      · rw [if_neg hsd, hdecomp]
    · rw [if_neg h1, hdecomp]
  · intro l s hs hws
    have hinner : mergeSources [l] [some s] = [{ l with webSources := some [s] }] := by
      have h0 : ([l] : List TranscriptionEntry) = [] ++ [l] := rfl
      rw [h0, mergeSources_concat]
      have hnew : mergeNew l (List.filterMap id [some s]) = [s] := by
        unfold mergeNew
        rw [hws]
        rfl
      rw [hnew, if_pos (by simp), if_pos hs, if_neg (by simp)]
      show [mergedEntry l (List.filterMap id [some s])] = _
      unfold mergedEntry
      rw [hnew, hws]
      rfl
    have hidem := mergeSources_idem [l] [some s]
    rw [hinner] at hidem
    rw [hinner]
    exact hidem
  · intro ts chunks l l2 hl hl2
    rcases mergeSources_cases ts chunks with h | ⟨last, hl', hs, hne, heq⟩
    · rw [h, hl] at hl2
      cases hl2
      exact ⟨[], (List.append_nil _).symm⟩
    · rw [hl] at hl'
      cases hl'
      rw [heq, List.getLast?_concat] at hl2
      cases hl2
      exact ⟨mergeNew l (chunks.filterMap id), by
        rw [show (mergedEntry l (chunks.filterMap id)).webSources =
          some (l.webSources.getD [] ++ mergeNew l (chunks.filterMap id)) from rfl,
          Option.getD_some]⟩

/-- Witness for C5 at concrete inputs: delivering the same source in two
successive grounding events leaves a single copy on the dog entry, and an
event carrying only an already-present uri is a no-op. -/
theorem C5_source_merge_idempotent_w :
    mergeSources
        (mergeSources [⟨"hi", Sender.dog, 0, none⟩] [some ⟨"https://a", "A"⟩])
        [some ⟨"https://a", "A"⟩] =
      [⟨"hi", Sender.dog, 0, some [⟨"https://a", "A"⟩]⟩] ∧
    mergeSources [⟨"hi", Sender.dog, 0, some [⟨"https://a", "A"⟩]⟩]
        [some ⟨"https://a", "A2"⟩] =
      [⟨"hi", Sender.dog, 0, some [⟨"https://a", "A"⟩]⟩] := by
  constructor
  · exact C5_source_merge_idempotent.2.2.1 ⟨"hi", Sender.dog, 0, none⟩
      ⟨"https://a", "A"⟩ rfl rfl
  · exact C5_source_merge_idempotent.2.1 [⟨"hi", Sender.dog, 0, some [⟨"https://a", "A"⟩]⟩]
      ⟨"hi", Sender.dog, 0, some [⟨"https://a", "A"⟩]⟩ [some ⟨"https://a", "A2"⟩]
      rfl rfl (by decide)

/-- Case-insensitive version of `charsLead`, as the sanitizer regex carries
the `i` flag. -/
def ciLead : List Char → List Char → Bool
  | [], _ => true
  | _ :: _, [] => false
  | p :: ps, c :: cs => p.toLower == c.toLower && ciLead ps cs

/-- The scaffolding labels of the sanitizer regex in `cleanContent`
(TeacherBoard component): `detail`, `content`, `value`, `description`,
`step`, in the pattern's alternation order. -/
def labelList : List (List Char) :=
  [['d', 'e', 't', 'a', 'i', 'l'], ['c', 'o', 'n', 't', 'e', 'n', 't'],
    ['v', 'a', 'l', 'u', 'e'], ['d', 'e', 's', 'c', 'r', 'i', 'p', 't', 'i', 'o', 'n'],
    ['s', 't', 'e', 'p']]

/-- The label match at the start of the text: the first label of the
alternation that leads the text case-insensitively, with the remainder
after it.  (No label is a case-insensitive prefix of another followed by
the pattern's separators, so alternation order does not matter here.) -/
def findLabelRest (cs : List Char) : Option (List Char) :=
  (labelList.find? (fun lab => ciLead lab cs)).map (fun lab => cs.drop lab.length)

/-- The `(\s*:)?\s*` tail of the sanitizer regex: after the label, consume
optional whitespace followed by a colon if present, then whitespace. -/
def afterLabel (rest : List Char) : List Char :=
  match rest.dropWhile jsWhitespace with
  | ':' :: r => r.dropWhile jsWhitespace
  | t => t

/-- `cleanContent` from the TeacherBoard component:
`text.replace(/^(detail|content|value|description|step)(\s*:)?\s*/i, '')`.
When no label leads the text the regex does not match and the text is
returned unchanged (the empty string is also returned unchanged, as in the
`if (!text) return ''` guard). -/
def cleanContent (s : String) : String :=
  match findLabelRest s.data with
  | some rest => String.mk (afterLabel rest)
  | none => s

/-- Whether one of the five scaffolding labels leads the text
case-insensitively — the condition under which the sanitizer regex
matches. -/
def hasLeadingLabel (s : String) : Bool := labelList.any (fun lab => ciLead lab s.data)

/-- Text with no leading scaffolding label passes through the sanitizer
unchanged. -/
theorem noLabel_cleanContent (s : String) (h : hasLeadingLabel s = false) :
    cleanContent s = s := by
  unfold hasLeadingLabel at h
  have hfind : labelList.find? (fun lab => ciLead lab s.data) = none := by
    rw [List.find?_eq_none]
    exact List.any_eq_false.mp h
  unfold cleanContent findLabelRest
  rw [hfind]
  rfl

/-- Claim C8: the sanitizer strips a leading scaffolding label among
"Detail", "Content", "Value", "Description", "Step" case-insensitively with
optional colon and space (second conjunct, for any label followed by a
colon, a space, and text with no further leading whitespace), leaves text
with no such leading label unchanged (first conjunct), and in particular
maps "Detail: 42" to "42", "content:x" to "x" and "no-prefix" to itself. -/
theorem C8_sanitizer_strip :
    (∀ s : String, hasLeadingLabel s = false → cleanContent s = s) ∧
    (∀ lab, lab ∈ labelList → ∀ rest : List Char,
      List.dropWhile jsWhitespace rest = rest →
      cleanContent (String.mk (lab ++ ':' :: ' ' :: rest)) = String.mk rest) ∧
    cleanContent "Detail: 42" = "42" ∧
    cleanContent "content:x" = "x" ∧
    cleanContent "no-prefix" = "no-prefix" := by
  refine ⟨noLabel_cleanContent, ?_, by decide, by decide, by decide⟩
  intro lab hmem rest hrest
  fin_cases hmem
  all_goals show String.mk (List.dropWhile jsWhitespace rest) = String.mk rest
  all_goals rw [hrest]

/-- Witness for C8 at concrete inputs: unlabelled text is unchanged, and a
"value: " label is stripped. -/
theorem C8_sanitizer_strip_w :
    cleanContent "plain words" = "plain words" ∧
    cleanContent (String.mk (['v', 'a', 'l', 'u', 'e'] ++ ':' :: ' ' :: ['4', '2'])) =
      String.mk ['4', '2'] := by
  constructor
  · exact C8_sanitizer_strip.1 "plain words" (by decide)
  · exact C8_sanitizer_strip.2.1 ['v', 'a', 'l', 'u', 'e'] (by decide) ['4', '2'] (by decide)

end Barky
